import Mathlib

/-!
Verification of the tag-resolution engine of `src/lib/interpreter.py`.

The Python module computes, for a given interpreter / OS / architecture /
C-runtime combination, the ordered list of binary-compatibility tags the
environment accepts.  All environment probes (`sys`, `sysconfig`,
`platform`, the Linux C-runtime probe) enter the functions below as
explicit arguments, so every embedded function is pure; integers are
`Nat`/`Int`, Python strings are `String`, Python `None`-able values are
`Option`, and the fallible extension-suffix parser returns `Except`.
Generators are embedded as the lists of their yields, in order.
-/

/-! ### Decimal rendering of integers (Python `str` on `int`) -/

/-- The decimal digit character for `d` (`d < 10`; larger values clamp to `'9'`,
never reached by `natDigitsAux`). -/
def digitChar : Nat → Char
  | 0 => '0' | 1 => '1' | 2 => '2' | 3 => '3' | 4 => '4'
  | 5 => '5' | 6 => '6' | 7 => '7' | 8 => '8' | _ => '9'

/-- Big-endian decimal digits of `n`, with explicit fuel (`fuel > n` suffices). -/
def natDigitsAux : Nat → Nat → List Char
  | 0, _ => []
  | fuel + 1, n =>
    if n < 10 then [digitChar n] else natDigitsAux fuel (n / 10) ++ [digitChar (n % 10)]

/-- Embedding of Python `str` on a non-negative `int`. -/
def pyStrNat (n : Nat) : String := String.mk (natDigitsAux (n + 1) n)

/-- Embedding of Python `str` on an `int`. -/
def pyStrInt : Int → String
  | .ofNat n => pyStrNat n
  | .negSucc n => "-" ++ pyStrNat (n + 1)

/-- Value of a big-endian list of decimal digit characters; also the embedding
of Python `int()` on a digit run. -/
def digitsVal (l : List Char) : Nat := l.foldl (fun a c => 10 * a + (c.toNat - 48)) 0

/-! ### Python tuple comparison on pairs, and `range(start, stop, -1)` -/

/-- Python `(a1, a2) >= (b1, b2)` on 2-tuples of non-negative ints. -/
def tupleGe (a b : Nat × Nat) : Bool := decide (b.1 < a.1) || (a.1 == b.1 && decide (b.2 ≤ a.2))

/-- Python `(a1, a2) < (b1, b2)` on 2-tuples of non-negative ints. -/
def tupleLt (a b : Nat × Nat) : Bool := decide (a.1 < b.1) || (a.1 == b.1 && decide (a.2 < b.2))

/-- Python `(a1, a2) < (b1, b2)` on 2-tuples of ints. -/
def tupleLtInt (a b : Int × Int) : Bool := decide (a.1 < b.1) || (a.1 == b.1 && decide (a.2 < b.2))

/-- `k` consecutive descending ints starting at `start`. -/
def intRangeDownAux : Nat → Int → List Int
  | 0, _ => []
  | k + 1, start => start :: intRangeDownAux k (start - 1)

/-- Python `range(start, stop, -1)` over ints: `start, start-1, ..., stop+1`. -/
def intRangeDown (start stop : Int) : List Int := intRangeDownAux (start - stop).toNat start

/-! ### `interpreter.py`: glibc parsing and the Linux platform-tag enumerators -/

/-- Embedding of `parse_glibc_version`: the regex
`(?P<major>[0-9]+)\.(?P<minor>[0-9]+)` matched at the start of the string
(trailing junk ignored), falling back to the `(-1, -1)` sentinel when there is
no match. -/
def parse_glibc_version (version_str : String) : Int × Int :=
  let cs := version_str.data
  let majDigits := cs.takeWhile Char.isDigit
  let afterMaj := cs.dropWhile Char.isDigit
  if majDigits.isEmpty then (-1, -1)
  else if afterMaj.head? == some '.' then
    let minDigits := afterMaj.tail.takeWhile Char.isDigit
    if minDigits.isEmpty then (-1, -1)
    else ((digitsVal majDigits : Int), (digitsVal minDigits : Int))
  else (-1, -1)

/-- `true` exactly when the argument begins with `<digits>.<digit>`, the start
the `parse_glibc_version` regex requires. -/
def beginsWithGlibcVersion (version_str : String) : Bool :=
  let cs := version_str.data
  !(cs.takeWhile Char.isDigit).isEmpty
    && (cs.dropWhile Char.isDigit).head? == some '.'
    && !((cs.dropWhile Char.isDigit).tail.takeWhile Char.isDigit).isEmpty

/-- Embedding of `_LAST_GLIBC_MINOR`: a `defaultdict` with no seeded keys whose
default is 50, hence the constant function 50. -/
def _LAST_GLIBC_MINOR (_major : Int) : Int := 50

/-- Embedding of `_LEGACY_MANYLINUX_MAP` as a partial lookup. -/
def _LEGACY_MANYLINUX_MAP (v : Int × Int) : Option String :=
  if v == ((2 : Int), (17 : Int)) then some "manylinux2014"
  else if v == ((2 : Int), (12 : Int)) then some "manylinux2010"
  else if v == ((2 : Int), (5 : Int)) then some "manylinux1"
  else none

/-- Embedding of `is_glibc_version_compatible`.  The optional `_manylinux`
site-packages override module probed by the source is an external hook that is
absent by default (its `import` raises `ImportError`), so the check reduces to
`sys_glibc < version → False` followed by `True`. -/
def is_glibc_version_compatible (arch : String) (sys_glibc version : Int × Int) : Bool :=
  !(tupleLtInt sys_glibc version)

/-- Embedding of `have_compatible_abi`. -/
def have_compatible_abi (arches : List String) (armhf i686 : Bool) : Bool :=
  if arches.contains "armv7l" then armhf
  else if arches.contains "i686" then i686
  else arches.any fun arch =>
    ["x86_64", "aarch64", "ppc64", "ppc64le", "s390x", "loongarch64", "riscv64"].contains arch

/-- The `too_old_glibc2` computation of `iter_manylinux_platform_tags`: the
oldest supported glibc baseline, exclusive. -/
def manylinuxBaseline (arches : List String) : Int × Int :=
  if arches.any (fun a => a == "x86_64" || a == "i686") then (2, 4) else (2, 16)

/-- Embedding of `iter_manylinux_platform_tags` (the generator, as the list of
its yields in order). -/
def iter_manylinux_platform_tags (current_glibc : Int × Int) (armhf i686 : Bool)
    (arches : List String) : List String :=
  if !have_compatible_abi arches armhf i686 then []
  else
    let too_old_glibc2 := manylinuxBaseline arches
    let glibc_max_list :=
      current_glibc :: (intRangeDown (current_glibc.1 - 1) 1).map fun maj =>
        (maj, _LAST_GLIBC_MINOR maj)
    arches.flatMap fun arch =>
      glibc_max_list.flatMap fun glibc_max =>
        let min_minor : Int := if glibc_max.1 == too_old_glibc2.1 then too_old_glibc2.2 else -1
        (intRangeDown glibc_max.2 min_minor).flatMap fun glibc_minor =>
          let glibc_version := (glibc_max.1, glibc_minor)
          let tag := "manylinux_" ++ pyStrInt glibc_version.1 ++ "_" ++ pyStrInt glibc_version.2
          (if is_glibc_version_compatible arch current_glibc glibc_version then
            [tag ++ "_" ++ arch] else [])
            ++ (match _LEGACY_MANYLINUX_MAP glibc_version with
                | some legacy_tag =>
                  if is_glibc_version_compatible arch current_glibc glibc_version then
                    [legacy_tag ++ "_" ++ arch]
                  else []
                | none => [])

/-- Loop body of `iter_musllinux_platform_tags`.  The source reuses the name
`minor` as the inner loop variable, so the value threaded into the next
architecture iteration is the last element of the previous descent (Python
leaves the loop variable at its final value), not the original minor. -/
def musllinuxTagsLoop (major : Int) : Int → List String → List String
  | _, [] => []
  | minor, arch :: rest =>
    let minors := intRangeDown minor (-1)
    let tags := minors.map fun m =>
      "musllinux_" ++ pyStrInt major ++ "_" ++ pyStrInt m ++ "_" ++ arch
    let minorNext := match minors.getLast? with | some m => m | none => minor
    tags ++ musllinuxTagsLoop major minorNext rest

/-- Embedding of `iter_musllinux_platform_tags`. -/
def iter_musllinux_platform_tags (version : Int × Int) (arches : List String) : List String :=
  musllinuxTagsLoop version.1 version.2 arches

/-! ### `interpreter.py`: interpreter identity, ABI builder, tag assembler -/

/-- A resolved `(interpreter, abi, platform)` tag triple. -/
abbrev PyTag := String × String × String

/-- The environment facts the CPython/generic ABI builders read through
`sysconfig.get_config_var`, `sys` and `importlib`, gathered as one record. -/
structure CPythonConfig where
  Py_DEBUG : Option Int
  gettotalrefcount : Bool
  has_ext_d_pyd : Bool
  Py_GIL_DISABLED : Option Int
  WITH_PYMALLOC : Option Int
  Py_UNICODE_SIZE : Option Int
  maxunicode : Int
  EXT_SUFFIX : Option String
  SO : Option String
  py_version_nodot : Option String

/-- The identity of the running interpreter: its resolved short name (from
`INTERPRETER_SHORT_NAMES`) and `sys.version_info[:2]`. -/
structure InterpreterIdentity where
  interp_name : String
  version : Nat × Nat

/-- Python truthiness of an optional int config var. -/
def truthyInt : Option Int → Bool
  | none => false
  | some n => n != 0

/-- Python truthiness of an optional string config var. -/
def truthyStr : Option String → Bool
  | none => false
  | some s => s != ""

/-- Embedding of `version_nodot` on the 2-tuples the callers pass. -/
def version_nodot (version : Nat × Nat) : String := pyStrNat version.1 ++ pyStrNat version.2

/-- Embedding of `interpreter_version`: the `py_version_nodot` config var when
truthy, else `version_nodot(sys.version_info[:2])`. -/
def interpreter_version (ident : InterpreterIdentity) (cfg : CPythonConfig) : String :=
  match cfg.py_version_nodot with
  | some v => if v != "" then v else version_nodot ident.version
  | none => version_nodot ident.version

/-- Embedding of `normalize_string`: dots, dashes and spaces become
underscores (the three `str.replace` calls, each on a single character). -/
def normalize_string (s : String) : String :=
  String.mk (s.data.map fun c => if c == '.' || c == '-' || c == ' ' then '_' else c)

/-- Embedding of `is_threaded_cpython`: matches `abis[0]` against the regex
`cp\d+(.*)` and looks for `'t'` in the abiflags group. -/
def is_threaded_cpython (abis : List String) : Bool :=
  match abis with
  | [] => false
  | abi :: _ =>
    match abi.data with
    | c1 :: c2 :: rest =>
      if c1 == 'c' && c2 == 'p' then
        if (rest.takeWhile Char.isDigit).isEmpty then false
        else (((rest.dropWhile Char.isDigit).takeWhile fun c => c != '\n').contains 't')
      else false
    | _ => false

/-- Embedding of `abi3_applies`.  The callers always pass
`sys.version_info[:2]`, a 2-tuple, so the source's `len(python_version) > 1`
guard is identically true. -/
def abi3_applies (python_version : Nat × Nat) (threading : Bool) : Bool :=
  tupleGe python_version (3, 2) && !threading

/-- The debug-build condition of `cpython_abis`: `Py_DEBUG` truthy, or unset
with either `sys.gettotalrefcount` present or `_d.pyd` among the extension
suffixes. -/
def cpythonDebugFlag (cfg : CPythonConfig) : Bool :=
  truthyInt cfg.Py_DEBUG || (cfg.Py_DEBUG == none && (cfg.gettotalrefcount || cfg.has_ext_d_pyd))

/-- The threading suffix of `cpython_abis`: `"t"` for a GIL-disabled build on
3.13+, else empty. -/
def cpythonThreadingFlag (py_version : Nat × Nat) (cfg : CPythonConfig) : String :=
  if tupleGe py_version (3, 13) && truthyInt cfg.Py_GIL_DISABLED then "t" else ""

/-- The debug suffix string of `cpython_abis`. -/
def cpythonDebugStr (cfg : CPythonConfig) : String :=
  if cpythonDebugFlag cfg then "d" else ""

/-- The pymalloc suffix string of `cpython_abis` (pre-3.8 only). -/
def pymallocStr (py_version : Nat × Nat) (cfg : CPythonConfig) : String :=
  if tupleLt py_version (3, 8) && (truthyInt cfg.WITH_PYMALLOC || cfg.WITH_PYMALLOC == none)
  then "m" else ""

/-- The UCS-4 suffix string of `cpython_abis` (pre-3.3 only; the source checks
it under the pre-3.8 branch, and `< (3,3)` implies `< (3,8)`). -/
def ucs4Str (py_version : Nat × Nat) (cfg : CPythonConfig) : String :=
  if tupleLt py_version (3, 3)
      && (cfg.Py_UNICODE_SIZE == some 4
          || (cfg.Py_UNICODE_SIZE == none && cfg.maxunicode == 0x10FFFF))
  then "u" else ""

/-- Embedding of `cpython_abis`. -/
def cpython_abis (py_version : Nat × Nat) (cfg : CPythonConfig) : List String :=
  let version := version_nodot py_version
  let threading := cpythonThreadingFlag py_version cfg
  let abis : List String :=
    if !tupleLt py_version (3, 8) && cpythonDebugStr cfg != "" then
      ["cp" ++ version ++ threading]
    else []
  ("cp" ++ version ++ threading ++ cpythonDebugStr cfg ++ pymallocStr py_version cfg
    ++ ucs4Str py_version cfg) :: abis

/-- Embedding of `cpython_tags`: the four tiers of the CPython assembler, in
yield order. -/
def cpython_tags (python_version : Nat × Nat) (cfg : CPythonConfig)
    (platforms : List String) : List PyTag :=
  let interpreter := "cp" ++ version_nodot python_version
  let abis := ((cpython_abis python_version cfg).erase "abi3").erase "none"
  let threading := is_threaded_cpython abis
  let use_abi3 := abi3_applies python_version threading
  (abis.flatMap fun abi => platforms.map fun p => (interpreter, abi, p))
    ++ (if use_abi3 then platforms.map fun p => (interpreter, "abi3", p) else [])
    ++ (platforms.map fun p => (interpreter, "none", p))
    ++ (if use_abi3 then
          (List.range' 2 (python_version.2 - 2)).reverse.flatMap fun m =>
            platforms.map fun p => ("cp" ++ version_nodot (python_version.1, m), "abi3", p)
        else [])

/-- Python `"-".join` on char lists. -/
def joinDash : List (List Char) → List Char
  | [] => []
  | [x] => x
  | x :: xs => x ++ '-' :: joinDash xs

/-- Python `str.split(sep)` for a single-character separator. -/
def splitOnChar (sep : Char) : List Char → List (List Char)
  | [] => [[]]
  | c :: rest =>
    match splitOnChar sep rest with
    | [] => [[]]
    | seg :: segs => if c == sep then [] :: seg :: segs else (c :: seg) :: segs

/-- Embedding of `generic_abi`: parse the ABI out of `EXT_SUFFIX` (falling
back to the `SO` config var), with the source's `SystemError` and the
out-of-range subscripts surfacing as `Except.error`. -/
def generic_abi (py_version : Nat × Nat) (cfg : CPythonConfig) :
    Except String (List String) :=
  let ext_suffix := if truthyStr cfg.EXT_SUFFIX then cfg.EXT_SUFFIX else cfg.SO
  match ext_suffix with
  | none => .error "invalid sysconfig.get_config_var EXT_SUFFIX"
  | some s =>
    match s.data with
    | [] => .error "IndexError: string index out of range"
    | c :: _ =>
      if c != '.' then .error "invalid sysconfig.get_config_var EXT_SUFFIX"
      else
        let parts := splitOnChar '.' s.data
        if parts.length < 3 then .ok (cpython_abis py_version cfg)
        else
          match parts[1]? with
          | none => .error "IndexError: list index out of range"
          | some soabi =>
            if "cpython".data.isPrefixOf soabi then
              match (splitOnChar '-' soabi)[1]? with
              | none => .error "IndexError: list index out of range"
              | some seg => .ok [normalize_string (String.mk ('c' :: 'p' :: seg))]
            else if "cp".data.isPrefixOf soabi then
              match (splitOnChar '-' soabi)[0]? with
              | none => .error "IndexError: list index out of range"
              | some seg => .ok [normalize_string (String.mk seg)]
            else if "pypy".data.isPrefixOf soabi then
              .ok [normalize_string (String.mk (joinDash ((splitOnChar '-' soabi).take 2)))]
            else if "graalpy".data.isPrefixOf soabi then
              .ok [normalize_string (String.mk (joinDash ((splitOnChar '-' soabi).take 3)))]
            else if soabi.isEmpty then .ok []
            else .ok [normalize_string (String.mk soabi)]

/-- Embedding of `generic_tags`. -/
def generic_tags (ident : InterpreterIdentity) (cfg : CPythonConfig)
    (platforms : List String) : Except String (List PyTag) :=
  let interpreter := ident.interp_name ++ interpreter_version ident cfg
  (generic_abi ident.version cfg).map fun abis0 =>
    let abis := if abis0.contains "none" then abis0 else abis0 ++ ["none"]
    abis.flatMap fun abi => platforms.map fun p => (interpreter, abi, p)

/-- Embedding of `py_interpreter_range` on the 2-tuple the callers pass
(`sys.version_info[:2]`, so the `len > 1` guards are identically true). -/
def py_interpreter_range (py_version : Nat × Nat) : List String :=
  ["py" ++ version_nodot py_version, "py" ++ pyStrNat py_version.1]
    ++ (List.range py_version.2).reverse.map fun m => "py" ++ version_nodot (py_version.1, m)

/-- Embedding of `compatible_tags`. -/
def compatible_tags (platforms : List String) (interpreter : Option String)
    (python_version : Nat × Nat) : List PyTag :=
  ((py_interpreter_range python_version).flatMap fun v => platforms.map fun p => (v, "none", p))
    ++ (match interpreter with | some i => [(i, "none", "any")] | none => [])
    ++ (py_interpreter_range python_version).map fun v => (v, "none", "any")

/-- Embedding of `iter_supported_tags`: the full assembler.  A `SystemError`
escaping `generic_abi` aborts the resolution, hence the `Except`. -/
def iter_supported_tags (ident : InterpreterIdentity) (cfg : CPythonConfig)
    (platforms : List String) : Except String (List PyTag) :=
  let base : Except String (List PyTag) :=
    if ident.interp_name == "cp" then .ok (cpython_tags ident.version cfg platforms)
    else generic_tags ident cfg platforms
  base.map fun tags =>
    let interp : Option String :=
      if ident.interp_name == "pp" && ident.version.1 == 3 then some "pp3"
      else if ident.interp_name == "cp" then some ("cp" ++ interpreter_version ident cfg)
      else none
    tags ++ compatible_tags platforms interp ident.version

/-- A representative release CPython 3.11 configuration (non-debug,
GIL-enabled, pymalloc defaulted). -/
def cp311Config : CPythonConfig :=
  { Py_DEBUG := some 0, gettotalrefcount := false, has_ext_d_pyd := false,
    Py_GIL_DISABLED := none, WITH_PYMALLOC := some 1, Py_UNICODE_SIZE := none,
    maxunicode := 0x10FFFF, EXT_SUFFIX := some ".cpython-311-x86_64-linux-gnu.so",
    SO := none, py_version_nodot := some "311" }

/-- The CPython 3.11 interpreter identity. -/
def cp311Identity : InterpreterIdentity := { interp_name := "cp", version := (3, 11) }

/-- A debug-build CPython configuration. -/
def debugConfig : CPythonConfig :=
  { Py_DEBUG := some 1, gettotalrefcount := true, has_ext_d_pyd := false,
    Py_GIL_DISABLED := none, WITH_PYMALLOC := none, Py_UNICODE_SIZE := none,
    maxunicode := 0x10FFFF, EXT_SUFFIX := some ".cpython-39d-x86_64-linux-gnu.so",
    SO := none, py_version_nodot := none }

/-! ### Arithmetic and string infrastructure lemmas -/

theorem digitChar_toNat (d : Nat) (h : d < 10) : (digitChar d).toNat = 48 + d := by
  interval_cases d <;> rfl

theorem digitsVal_append_one (l : List Char) (c : Char) :
    digitsVal (l ++ [c]) = 10 * digitsVal l + (c.toNat - 48) := by
  simp [digitsVal, List.foldl_append]

theorem natDigitsAux_val : ∀ fuel n, n < fuel → digitsVal (natDigitsAux fuel n) = n := by
  intro fuel
  induction fuel with
  | zero => intro n h; omega
  | succ f ih =>
    intro n h
    by_cases h10 : n < 10
    · simp [natDigitsAux, h10, digitsVal, digitChar_toNat n h10]
    · have hrec : n / 10 < f := by omega
      simp [natDigitsAux, h10, digitsVal_append_one, ih _ hrec, digitChar_toNat (n % 10) (by omega)]
      omega

theorem pyStrNat_inj (m n : Nat) (h : pyStrNat m = pyStrNat n) : m = n := by
  have h2 : natDigitsAux (m + 1) m = natDigitsAux (n + 1) n := congrArg String.data h
  have hm := natDigitsAux_val (m + 1) m (by omega)
  have hn := natDigitsAux_val (n + 1) n (by omega)
  rw [h2] at hm
  omega

theorem natDigitsAux_ne_nil (fuel n : Nat) (h : n < fuel) : natDigitsAux fuel n ≠ [] := by
  cases fuel with
  | zero => omega
  | succ f => by_cases h10 : n < 10 <;> simp [natDigitsAux, h10]

theorem digitChar_isDigit (d : Nat) (h : d < 10) : (digitChar d).isDigit = true := by
  interval_cases d <;> decide

theorem natDigitsAux_digits : ∀ fuel n, ∀ c ∈ natDigitsAux fuel n, c.isDigit = true := by
  intro fuel
  induction fuel with
  | zero => intro n c hc; simp [natDigitsAux] at hc
  | succ f ih =>
    intro n c hc
    by_cases h10 : n < 10 <;> simp [natDigitsAux, h10] at hc
    · subst hc; exact digitChar_isDigit n h10
    · rcases hc with hc | hc
      · exact ih _ _ hc
      · subst hc; exact digitChar_isDigit (n % 10) (by omega)

theorem mem_intRangeDownAux : ∀ (k : Nat) (s m : Int),
    m ∈ intRangeDownAux k s ↔ s - k < m ∧ m ≤ s := by
  intro k
  induction k with
  | zero => intro s m; simp [intRangeDownAux]
  | succ j ih =>
    intro s m
    simp only [intRangeDownAux, List.mem_cons, ih (s - 1) m]
    omega

theorem mem_intRangeDown {start stop m : Int} :
    m ∈ intRangeDown start stop ↔ stop < m ∧ m ≤ start := by
  rw [intRangeDown, mem_intRangeDownAux]
  omega

theorem takeWhile_all_append (p : Char → Bool) (l1 l2 : List Char) (h : ∀ x ∈ l1, p x) :
    (l1 ++ l2).takeWhile p = l1 ++ l2.takeWhile p := by
  induction l1 with
  | nil => simp
  | cons c t ih =>
    have hc : p c := h c (by simp)
    simp only [List.cons_append, List.takeWhile_cons, hc, if_true]
    rw [ih fun x hx => h x (by simp [hx])]

theorem dropWhile_all_append (p : Char → Bool) (l1 l2 : List Char) (h : ∀ x ∈ l1, p x) :
    (l1 ++ l2).dropWhile p = l2.dropWhile p := by
  induction l1 with
  | nil => simp
  | cons c t ih =>
    have hc : p c := h c (by simp)
    simp only [List.cons_append, List.dropWhile_cons, hc, if_true]
    exact ih fun x hx => h x (by simp [hx])

theorem flatMap_const_nil {α β : Type} (l : List α) :
    (l.flatMap fun _ => ([] : List β)) = [] := by
  induction l <;> simp_all

theorem flatMap_chunk_of_mem {α β : Type} (f : α → List β) {a : α} {l : List α} (h : a ∈ l) :
    List.IsInfix (f a) (l.flatMap f) := by
  obtain ⟨s, t, rfl⟩ := List.append_of_mem h
  refine ⟨s.flatMap f, t.flatMap f, ?_⟩
  simp

/-! ### C2: the musllinux descent -/

/-- C2: for musllinux version `(1, 2)` and the alias list `[armv8l, armv7l]`
the enumerator does NOT give the second alias the full minor descent: because
the inner loop shadows `minor`, `armv7l` receives only `musllinux_1_0_armv7l`
and `musllinux_1_2_armv7l` is never produced, contrary to the claim; the
single-arch descent of the spec test does hold. -/
theorem c2_musllinux_second_alias_truncated :
    iter_musllinux_platform_tags (1, 2) ["armv8l", "armv7l"]
      = ["musllinux_1_2_armv8l", "musllinux_1_1_armv8l", "musllinux_1_0_armv8l",
         "musllinux_1_0_armv7l"]
    ∧ "musllinux_1_2_armv7l" ∉ iter_musllinux_platform_tags (1, 2) ["armv8l", "armv7l"]
    ∧ iter_musllinux_platform_tags (1, 2) ["x86_64"]
      = ["musllinux_1_2_x86_64", "musllinux_1_1_x86_64", "musllinux_1_0_x86_64"] := by
  refine ⟨by decide, by decide, by decide⟩


/-! ### C8: unparsable glibc version strings degrade to the sentinel -/

theorem manylinux_sentinel_empty (armhf i686 : Bool) (arches : List String) :
    iter_manylinux_platform_tags (-1, -1) armhf i686 arches = [] := by
  by_cases hcab : have_compatible_abi arches armhf i686 = true
  · rw [iter_manylinux_platform_tags, hcab]
    simp only [Bool.not_true, Bool.false_eq_true, if_false]
    have hr1 : intRangeDown ((-1 : Int) - 1) 1 = [] := by decide
    have hr2 : ∀ m : Int, -1 ≤ m → intRangeDown (-1 : Int) m = [] := by
      intro m hm
      rw [intRangeDown, Int.toNat_eq_zero.mpr (by omega : (-1 : Int) - m ≤ 0)]
      rfl
    rw [List.flatMap_eq_nil_iff]
    intro arch _
    rw [show ((-1 : Int), (-1 : Int)).1 - 1 = ((-1 : Int) - 1) from rfl, hr1]
    simp only [List.map_nil, List.flatMap_cons, List.flatMap_nil, List.append_nil]
    have hmin : intRangeDown ((-1 : Int), (-1 : Int)).2
        (if ((-1 : Int), (-1 : Int)).1 == (manylinuxBaseline arches).1
         then (manylinuxBaseline arches).2 else -1) = [] := by
      split
      · refine hr2 _ ?_
        rw [manylinuxBaseline]
        split <;> norm_num
      · exact hr2 _ (by omega)
    rw [hmin]
    rfl
  · have hf : have_compatible_abi arches armhf i686 = false := by simpa using hcab
    simp [iter_manylinux_platform_tags, hf]

/-- C8: a glibc version string that does not begin with `<digits>.<digit>`
parses to the sentinel `(-1, -1)` (first two conjuncts: the sentinel result
and the structural characterization of "begins with a version number"); with
system glibc `(-1, -1)` the default compatibility check rejects every version
above the sentinel, and the manylinux enumerator emits no tag at all. -/
theorem c8_unparsable_glibc_sentinel :
    (∀ s : String, beginsWithGlibcVersion s = false → parse_glibc_version s = (-1, -1))
    ∧ (∀ s : String, beginsWithGlibcVersion s = true ↔
        ∃ d1 c rest, s.data = d1 ++ '.' :: c :: rest ∧ d1 ≠ []
          ∧ (∀ x ∈ d1, x.isDigit = true) ∧ c.isDigit = true)
    ∧ (∀ (arch : String) (v : Int × Int), tupleLtInt (-1, -1) v = true →
        is_glibc_version_compatible arch (-1, -1) v = false)
    ∧ (∀ (armhf i686 : Bool) (arches : List String),
        iter_manylinux_platform_tags (-1, -1) armhf i686 arches = []) := by
  refine ⟨?_, ?_, ?_, manylinux_sentinel_empty⟩
  · intro s h
    simp only [beginsWithGlibcVersion, Bool.and_eq_false_iff] at h
    simp only [parse_glibc_version]
    rcases h with (h | h) | h
    · rw [Bool.not_eq_false'] at h
      simp [h]
    · rcases Bool.eq_false_iff.mp h with hne
      by_cases h1 : (s.data.takeWhile Char.isDigit).isEmpty
      · simp [h1]
      · simp [h1, h]
    · rw [Bool.not_eq_false'] at h
      by_cases h1 : (s.data.takeWhile Char.isDigit).isEmpty
      · simp [h1]
      · by_cases h2 : (s.data.dropWhile Char.isDigit).head? == some '.'
        · simp [h1, h2, h]
        · have h2f : ((s.data.dropWhile Char.isDigit).head? == some '.') = false := by
            simpa using h2
          simp [h1, h2f]
  · intro s
    constructor
    · intro h
      simp only [beginsWithGlibcVersion, Bool.and_eq_true, Bool.not_eq_true'] at h
      obtain ⟨⟨h1, h2⟩, h3⟩ := h
      cases hd : s.data.dropWhile Char.isDigit with
      | nil => rw [hd] at h2; simp at h2
      | cons c rest =>
        rw [hd] at h2 h3
        have hc : c = '.' := by
          have := eq_of_beq h2
          simpa using this
        subst hc
        simp only [List.tail_cons] at h3
        cases rest with
        | nil => simp at h3
        | cons c1 r1 =>
          have hc1 : c1.isDigit = true := by
            cases hpd : c1.isDigit with
            | true => rfl
            | false =>
              rw [List.takeWhile_cons, hpd] at h3
              simp at h3
          refine ⟨s.data.takeWhile Char.isDigit, c1, r1, ?_, ?_, ?_, hc1⟩
          · conv_lhs => rw [← List.takeWhile_append_dropWhile Char.isDigit s.data]
            rw [hd]
          · simpa [List.isEmpty_iff] using h1
          · intro x hx; exact List.mem_takeWhile_imp hx
    · rintro ⟨d1, c, rest, hs, hne, hdig, hc⟩
      simp only [beginsWithGlibcVersion, hs]
      have ht : (d1 ++ '.' :: c :: rest).takeWhile Char.isDigit = d1 := by
        rw [takeWhile_all_append Char.isDigit d1 ('.' :: c :: rest) hdig]
        simp [List.takeWhile_cons]
      have hdw : (d1 ++ '.' :: c :: rest).dropWhile Char.isDigit = '.' :: c :: rest := by
        rw [dropWhile_all_append Char.isDigit d1 ('.' :: c :: rest) hdig]
        simp [List.dropWhile_cons]
      rw [ht, hdw]
      simp [hne, List.takeWhile_cons, hc]
  · intro arch v h
    simp [is_glibc_version_compatible, h]

/-- Witness for C8 at concrete inputs. -/
theorem c8_unparsable_glibc_sentinel_witness :
    beginsWithGlibcVersion "x.y" = false ∧ parse_glibc_version "x.y" = (-1, -1)
    ∧ tupleLtInt (-1, -1) (2, 5) = true
    ∧ is_glibc_version_compatible "x86_64" (-1, -1) (2, 5) = false
    ∧ iter_manylinux_platform_tags (-1, -1) true true ["x86_64"] = [] :=
  ⟨by decide, c8_unparsable_glibc_sentinel.1 "x.y" (by decide), by decide,
   c8_unparsable_glibc_sentinel.2.2.1 "x86_64" (2, 5) (by decide),
   c8_unparsable_glibc_sentinel.2.2.2 true true ["x86_64"]⟩

/-! ### C10: the ABI gate in front of the manylinux enumerator -/

/-- C10: `have_compatible_abi` gates the manylinux enumerator: `armv7l` in the
alias list defers to the `armhf` flag, else `i686` defers to the `i686` flag,
else some alias must lie in the fixed allowed set; when the gate fails the
enumerator emits zero tags.  The final conjunct checks a concrete instance:
`armv7l` with `armhf = false` yields nothing even for glibc `(2, 30)`. -/
theorem c10_manylinux_abi_gate :
    (∀ (arches : List String) (armhf i686 : Bool),
      have_compatible_abi arches armhf i686 = true ↔
        (if "armv7l" ∈ arches then armhf = true
         else if "i686" ∈ arches then i686 = true
         else ∃ a ∈ arches,
           a ∈ (["x86_64", "aarch64", "ppc64", "ppc64le", "s390x", "loongarch64",
                 "riscv64"] : List String)))
    ∧ (∀ (current : Int × Int) (armhf i686 : Bool) (arches : List String),
        have_compatible_abi arches armhf i686 = false →
        iter_manylinux_platform_tags current armhf i686 arches = [])
    ∧ iter_manylinux_platform_tags (2, 30) false false ["armv7l"] = [] := by
  refine ⟨?_, ?_, by decide⟩
  · intro arches armhf i686
    by_cases h1 : "armv7l" ∈ arches <;> by_cases h2 : "i686" ∈ arches <;>
      simp [have_compatible_abi, h1, h2, List.any_eq_true]
  · intro current armhf i686 arches h
    simp [iter_manylinux_platform_tags, h]

/-- Witness for C10 at concrete inputs. -/
theorem c10_manylinux_abi_gate_witness :
    have_compatible_abi ["armv7l"] false true = false
    ∧ iter_manylinux_platform_tags (2, 30) false true ["armv7l"] = [] :=
  ⟨by decide, c10_manylinux_abi_gate.2.1 (2, 30) false true ["armv7l"] (by decide)⟩

/-! ### C6: the manylinux glibc baseline -/

/-- C6: the baseline is `(2, 4)` exactly when the alias set meets
`{x86_64, i686}` and `(2, 16)` otherwise; consequently on glibc `(2, 30)`
no `manylinux_2_m_aarch64` tag with `m ≤ 16` is emitted for `aarch64`,
while `manylinux1_x86_64` (derived from `(2, 5)`) is emitted for `x86_64`. -/
theorem c6_manylinux_baseline :
    (∀ arches : List String,
      manylinuxBaseline arches =
        if ∃ a ∈ arches, a = "x86_64" ∨ a = "i686" then ((2 : Int), (4 : Int)) else (2, 16))
    ∧ (∀ m : Nat, m ≤ 16 →
        ("manylinux_2_" ++ pyStrNat m ++ "_aarch64")
          ∉ iter_manylinux_platform_tags (2, 30) false false ["aarch64"])
    ∧ "manylinux1_x86_64" ∈ iter_manylinux_platform_tags (2, 30) false false ["x86_64"]
    ∧ "manylinux_2_5_x86_64" ∈ iter_manylinux_platform_tags (2, 30) false false ["x86_64"] := by
  refine ⟨?_, ?_, by decide, by decide⟩
  · intro arches
    simp only [manylinuxBaseline, List.any_eq_true, Bool.or_eq_true, beq_iff_eq]
  · intro m hm
    interval_cases m <;> decide

/-- Witness for C6 at a concrete excluded minor. -/
theorem c6_manylinux_baseline_witness :
    (15 : Nat) ≤ 16
    ∧ ("manylinux_2_" ++ pyStrNat 15 ++ "_aarch64")
        ∉ iter_manylinux_platform_tags (2, 30) false false ["aarch64"] :=
  ⟨by decide, c6_manylinux_baseline.2.1 15 (by decide)⟩

/-! ### C7: legacy manylinux aliases follow the numeric tag -/

theorem manylinuxBaseline_fst (arches : List String) : (manylinuxBaseline arches).1 = 2 := by
  rw [manylinuxBaseline]; split <;> rfl

theorem manylinuxBaseline_snd_lt (arches : List String) : (manylinuxBaseline arches).2 < 17 := by
  rw [manylinuxBaseline]; split <;> norm_num

theorem manylinux_pair_of_ceiling (current : Int × Int) (armhf i686 : Bool)
    (arches : List String) (arch : String) (gmax : Int × Int)
    (hcab : have_compatible_abi arches armhf i686 = true)
    (harch : arch ∈ arches)
    (hmem : gmax ∈ current ::
      (intRangeDown (current.1 - 1) 1).map fun maj => (maj, _LAST_GLIBC_MINOR maj))
    (hfst : gmax.1 = 2) (hsnd : 17 ≤ gmax.2)
    (hcompat : is_glibc_version_compatible arch current (2, 17) = true) :
    List.IsInfix ["manylinux_2_17_" ++ arch, "manylinux2014_" ++ arch]
      (iter_manylinux_platform_tags current armhf i686 arches) := by
  rw [iter_manylinux_platform_tags, hcab]
  simp only [Bool.not_true, Bool.false_eq_true, if_false]
  refine List.IsInfix.trans ?_ (flatMap_chunk_of_mem _ harch)
  refine List.IsInfix.trans ?_ (flatMap_chunk_of_mem _ hmem)
  have hbeq : (gmax.1 == (manylinuxBaseline arches).1) = true := by
    rw [hfst, manylinuxBaseline_fst]
    rfl
  simp only [hbeq, if_true]
  have h17 : (17 : Int) ∈ intRangeDown gmax.2 (manylinuxBaseline arches).2 :=
    mem_intRangeDown.mpr ⟨manylinuxBaseline_snd_lt arches, hsnd⟩
  refine List.IsInfix.trans ?_ (flatMap_chunk_of_mem _ h17)
  rw [hfst, hcompat]
  simp only [_LEGACY_MANYLINUX_MAP, if_true]
  norm_num
  exact List.infix_rfl

/-- C7: whenever the system glibc is at least `(2, 17)` and the ABI gate
passes, the enumerator emits, for each architecture in the alias list, the
legacy tag `manylinux2014_<arch>` immediately after `manylinux_2_17_<arch>`
(numeric form first); the last three conjuncts check the adjacency of all
three legacy aliases concretely at glibc `(2, 17)` on `x86_64`. -/
theorem c7_legacy_alias_adjacent :
    (∀ (current : Int × Int) (armhf i686 : Bool) (arches : List String) (arch : String),
      tupleLtInt current (2, 17) = false →
      arch ∈ arches →
      have_compatible_abi arches armhf i686 = true →
      List.IsInfix ["manylinux_2_17_" ++ arch, "manylinux2014_" ++ arch]
        (iter_manylinux_platform_tags current armhf i686 arches))
    ∧ List.IsInfix ["manylinux_2_17_x86_64", "manylinux2014_x86_64"]
        (iter_manylinux_platform_tags (2, 17) false false ["x86_64"])
    ∧ List.IsInfix ["manylinux_2_12_x86_64", "manylinux2010_x86_64"]
        (iter_manylinux_platform_tags (2, 17) false false ["x86_64"])
    ∧ List.IsInfix ["manylinux_2_5_x86_64", "manylinux1_x86_64"]
        (iter_manylinux_platform_tags (2, 17) false false ["x86_64"]) := by
  refine ⟨?_, by decide, by decide, by decide⟩
  intro current armhf i686 arches arch hlex harch hcab
  have hcompat : is_glibc_version_compatible arch current (2, 17) = true := by
    rw [is_glibc_version_compatible, hlex]
    rfl
  rw [tupleLtInt, Bool.or_eq_false_iff] at hlex
  obtain ⟨ha, hb⟩ := hlex
  have ha2 : ¬ current.1 < 2 := of_decide_eq_false ha
  by_cases hmaj : current.1 = 2
  · have h17 : 17 ≤ current.2 := by
      rw [hmaj] at hb
      simp only [beq_self_eq_true, Bool.true_and] at hb
      have := of_decide_eq_false hb
      omega
    exact manylinux_pair_of_ceiling current armhf i686 arches arch current hcab harch
      (List.mem_cons_self _ _) hmaj h17 hcompat
  · have h3 : 3 ≤ current.1 := by omega
    refine manylinux_pair_of_ceiling current armhf i686 arches arch (2, 50) hcab harch
      ?_ rfl (by norm_num) hcompat
    exact List.mem_cons_of_mem _
      (List.mem_map.mpr ⟨2, mem_intRangeDown.mpr ⟨by omega, by omega⟩, rfl⟩)

/-- Witness for C7 at concrete inputs: glibc `(2, 30)` on `aarch64`. -/
theorem c7_legacy_alias_adjacent_witness :
    tupleLtInt (2, 30) (2, 17) = false
    ∧ "aarch64" ∈ ["aarch64"]
    ∧ have_compatible_abi ["aarch64"] false false = true
    ∧ List.IsInfix ["manylinux_2_17_" ++ "aarch64", "manylinux2014_" ++ "aarch64"]
        (iter_manylinux_platform_tags (2, 30) false false ["aarch64"]) :=
  ⟨by decide, by decide, by decide,
   c7_legacy_alias_adjacent.1 (2, 30) false false ["aarch64"] "aarch64"
     (by decide) (by decide) (by decide)⟩

/-! ### C3: debug-build ABI tokens -/

theorem tupleLt_iff (a b : Nat × Nat) :
    tupleLt a b = true ↔ (a.1 < b.1 ∨ (a.1 = b.1 ∧ a.2 < b.2)) := by
  simp [tupleLt]

theorem tupleGe_iff (a b : Nat × Nat) :
    tupleGe a b = true ↔ (b.1 < a.1 ∨ (a.1 = b.1 ∧ b.2 ≤ a.2)) := by
  simp [tupleGe]

theorem tupleLtInt_iff (a b : Int × Int) :
    tupleLtInt a b = true ↔ (a.1 < b.1 ∨ (a.1 = b.1 ∧ a.2 < b.2)) := by
  simp [tupleLtInt]

/-- C3 counterexample: on a CPython 3.9 debug build the ABI builder emits the
non-debug token `cp39` in addition to (and after) `cp39d`, so "for version ≥
(3,8) only the fully-qualified debug token is emitted" is false; and on a 3.7
debug build it emits a single token `cp37dm` only, so "a second,
non-debug-suffixed token ordered before the primary when version < (3,8)" is
false as well. -/
theorem c3_debug_abi_counterexample :
    cpython_abis (3, 9) debugConfig = ["cp39d", "cp39"]
    ∧ "cp39" ∈ cpython_abis (3, 9) debugConfig
    ∧ cpython_abis (3, 7) debugConfig = ["cp37dm"]
    ∧ (cpython_abis (3, 7) debugConfig).length = 1 :=
  ⟨by decide, by decide, by decide, by decide⟩

/-- C3 amended: for a CPython debug build with version ≥ (3,8) the ABI builder
emits the non-debug-suffixed token as a second entry ordered AFTER the primary
debug token; for version < (3,8) it emits only the single fully-qualified
token (debug/pymalloc/ucs4 suffixes folded into it), never a separate
non-debug token. -/
theorem c3_debug_abi_amended :
    ∀ (v : Nat × Nat) (cfg : CPythonConfig),
      (tupleGe v (3, 8) = true → cpythonDebugFlag cfg = true →
        cpython_abis v cfg =
          ["cp" ++ version_nodot v ++ cpythonThreadingFlag v cfg ++ "d",
           "cp" ++ version_nodot v ++ cpythonThreadingFlag v cfg])
      ∧ (tupleLt v (3, 8) = true → (cpython_abis v cfg).length = 1) := by
  intro v cfg
  constructor
  · intro hge hdbg
    have hge' := (tupleGe_iff v (3, 8)).mp hge
    have hlt8 : tupleLt v (3, 8) = false := by
      rw [Bool.eq_false_iff]
      intro hl
      have := (tupleLt_iff v (3, 8)).mp hl
      simp at hge' this
      omega
    have hlt3 : tupleLt v (3, 3) = false := by
      rw [Bool.eq_false_iff]
      intro hl
      have := (tupleLt_iff v (3, 3)).mp hl
      simp at hge' this
      omega
    simp only [cpython_abis, cpythonDebugStr, pymallocStr, ucs4Str, hdbg, hlt8, hlt3, if_true,
      Bool.false_and, Bool.false_eq_true, if_false, Bool.not_false, Bool.true_and]
    simp [String.append_empty]
  · intro hlt
    simp only [cpython_abis, cpythonDebugStr, pymallocStr, ucs4Str, hlt, Bool.not_true,
      Bool.false_and, Bool.false_eq_true, if_false]
    simp

/-- Witness for C3's amended claim at concrete inputs. -/
theorem c3_debug_abi_amended_witness :
    tupleGe (3, 9) (3, 8) = true ∧ cpythonDebugFlag debugConfig = true
    ∧ cpython_abis (3, 9) debugConfig
        = ["cp" ++ version_nodot (3, 9) ++ cpythonThreadingFlag (3, 9) debugConfig ++ "d",
           "cp" ++ version_nodot (3, 9) ++ cpythonThreadingFlag (3, 9) debugConfig]
    ∧ tupleLt (3, 7) (3, 8) = true ∧ (cpython_abis (3, 7) debugConfig).length = 1 :=
  ⟨by decide, by decide, (c3_debug_abi_amended (3, 9) debugConfig).1 (by decide) (by decide),
   by decide, (c3_debug_abi_amended (3, 7) debugConfig).2 (by decide)⟩

/-! ### C5: abi3 eligibility and the historical abi3 descent -/

theorem takeWhile_none (p : Char → Bool) (l : List Char) (h : ∀ c ∈ l, p c = false) :
    l.takeWhile p = [] := by
  cases l with
  | nil => rfl
  | cons c t => simp [List.takeWhile_cons, h c (by simp)]

theorem dropWhile_none (p : Char → Bool) (l : List Char) (h : ∀ c ∈ l, p c = false) :
    l.dropWhile p = l := by
  cases l with
  | nil => rfl
  | cons c t => simp [List.dropWhile_cons, h c (by simp)]

theorem takeWhile_all (p : Char → Bool) (l : List Char) (h : ∀ x ∈ l, p x) :
    l.takeWhile p = l := by
  induction l with
  | nil => rfl
  | cons c t ih =>
    simp [List.takeWhile_cons, h c (by simp), ih fun x hx => h x (by simp [hx])]

theorem is_threaded_head (dver flags : List Char) (s : String) (rest : List String)
    (hs : s.data = 'c' :: 'p' :: (dver ++ flags))
    (hne : dver ≠ []) (hdig : ∀ c ∈ dver, c.isDigit = true)
    (hnd : ∀ c ∈ flags, c.isDigit = false)
    (hnl : ∀ c ∈ flags, (c != '\n') = true) :
    is_threaded_cpython (s :: rest) = flags.contains 't' := by
  simp only [is_threaded_cpython, hs]
  rw [takeWhile_all_append Char.isDigit dver flags hdig,
    takeWhile_none Char.isDigit flags hnd, List.append_nil,
    dropWhile_all_append Char.isDigit dver flags hdig,
    dropWhile_none Char.isDigit flags hnd,
    takeWhile_all _ flags hnl]
  simp [List.isEmpty_iff, hne]

theorem ifFlag_nondigit (b : Bool) (t : String) (h : ∀ c ∈ t.data, c.isDigit = false) :
    ∀ c ∈ (if b then t else "").data, c.isDigit = false := by
  cases b
  · intro c hc
    have he : ("" : String).data = [] := rfl
    rw [if_neg (by simp), he] at hc
    simp at hc
  · simpa using h

theorem ifFlag_not_newline (b : Bool) (t : String) (h : ∀ c ∈ t.data, (c != '\n') = true) :
    ∀ c ∈ (if b then t else "").data, (c != '\n') = true := by
  cases b
  · intro c hc
    have he : ("" : String).data = [] := rfl
    rw [if_neg (by simp), he] at hc
    simp at hc
  · simpa using h

theorem ifFlag_ne_t (b : Bool) (t : String) (h : ∀ c ∈ t.data, c ≠ 't') :
    ∀ c ∈ (if b then t else "").data, c ≠ 't' := by
  cases b
  · intro c hc
    have he : ("" : String).data = [] := rfl
    rw [if_neg (by simp), he] at hc
    simp at hc
  · simpa using h

theorem version_nodot_data (v : Nat × Nat) :
    (version_nodot v).data = natDigitsAux (v.1 + 1) v.1 ++ natDigitsAux (v.2 + 1) v.2 := by
  simp [version_nodot, pyStrNat, String.data_append]

theorem version_nodot_data_ne_nil (v : Nat × Nat) : (version_nodot v).data ≠ [] := by
  rw [version_nodot_data]
  intro h
  exact natDigitsAux_ne_nil _ _ (by omega) (List.append_eq_nil.mp h).1

theorem version_nodot_data_digits (v : Nat × Nat) :
    ∀ c ∈ (version_nodot v).data, c.isDigit = true := by
  intro c hc
  rw [version_nodot_data] at hc
  rcases List.mem_append.mp hc with h | h
  · exact natDigitsAux_digits _ _ _ h
  · exact natDigitsAux_digits _ _ _ h

theorem is_threaded_cpython_abis (v : Nat × Nat) (cfg : CPythonConfig) :
    is_threaded_cpython (cpython_abis v cfg)
      = (tupleGe v (3, 13) && truthyInt cfg.Py_GIL_DISABLED) := by
  have h1 : ∀ x ∈ (cpythonThreadingFlag v cfg).data, x.isDigit = false := by
    rw [cpythonThreadingFlag]; exact ifFlag_nondigit _ "t" (by decide)
  have h2 : ∀ x ∈ (cpythonDebugStr cfg).data, x.isDigit = false := by
    rw [cpythonDebugStr]; exact ifFlag_nondigit _ "d" (by decide)
  have h3 : ∀ x ∈ (pymallocStr v cfg).data, x.isDigit = false := by
    rw [pymallocStr]; exact ifFlag_nondigit _ "m" (by decide)
  have h4 : ∀ x ∈ (ucs4Str v cfg).data, x.isDigit = false := by
    rw [ucs4Str]; exact ifFlag_nondigit _ "u" (by decide)
  have h1n : ∀ x ∈ (cpythonThreadingFlag v cfg).data, (x != '\n') = true := by
    rw [cpythonThreadingFlag]; exact ifFlag_not_newline _ "t" (by decide)
  have h2n : ∀ x ∈ (cpythonDebugStr cfg).data, (x != '\n') = true := by
    rw [cpythonDebugStr]; exact ifFlag_not_newline _ "d" (by decide)
  have h3n : ∀ x ∈ (pymallocStr v cfg).data, (x != '\n') = true := by
    rw [pymallocStr]; exact ifFlag_not_newline _ "m" (by decide)
  have h4n : ∀ x ∈ (ucs4Str v cfg).data, (x != '\n') = true := by
    rw [ucs4Str]; exact ifFlag_not_newline _ "u" (by decide)
  simp only [cpython_abis]
  rw [is_threaded_head (version_nodot v).data
      ((cpythonThreadingFlag v cfg).data ++ ((cpythonDebugStr cfg).data
        ++ ((pymallocStr v cfg).data ++ (ucs4Str v cfg).data)))
      _ _ (by simp [String.data_append]) (version_nodot_data_ne_nil v)
      (version_nodot_data_digits v) ?hnd ?hnl]
  case hnd =>
    intro c hc
    rcases List.mem_append.mp hc with h | h
    · exact h1 c h
    rcases List.mem_append.mp h with h | h
    · exact h2 c h
    rcases List.mem_append.mp h with h | h
    · exact h3 c h
    · exact h4 c h
  case hnl =>
    intro c hc
    rcases List.mem_append.mp hc with h | h
    · exact h1n c h
    rcases List.mem_append.mp h with h | h
    · exact h2n c h
    rcases List.mem_append.mp h with h | h
    · exact h3n c h
    · exact h4n c h
  by_cases hcond : (tupleGe v (3, 13) && truthyInt cfg.Py_GIL_DISABLED) = true
  · rw [hcond]
    have hth : cpythonThreadingFlag v cfg = "t" := by rw [cpythonThreadingFlag, if_pos hcond]
    rw [hth]
    simp [List.contains_iff_exists_mem_beq]
  · have hf : (tupleGe v (3, 13) && truthyInt cfg.Py_GIL_DISABLED) = false := by
      simpa using hcond
    rw [hf]
    have hth : cpythonThreadingFlag v cfg = "" := by
      rw [cpythonThreadingFlag, if_neg (by simp [hf])]
    rw [hth]
    have h2t : ∀ x ∈ (cpythonDebugStr cfg).data, x ≠ 't' := by
      rw [cpythonDebugStr]; exact ifFlag_ne_t _ "d" (by decide)
    have h3t : ∀ x ∈ (pymallocStr v cfg).data, x ≠ 't' := by
      rw [pymallocStr]; exact ifFlag_ne_t _ "m" (by decide)
    have h4t : ∀ x ∈ (ucs4Str v cfg).data, x ≠ 't' := by
      rw [ucs4Str]; exact ifFlag_ne_t _ "u" (by decide)
    rw [Bool.eq_false_iff]
    intro hcont
    rw [List.contains_iff_exists_mem_beq] at hcont
    obtain ⟨c, hc, hbeq⟩ := hcont
    have hct : c = 't' := (eq_of_beq hbeq).symm
    subst hct
    rcases List.mem_append.mp hc with h | h
    · have he : ("" : String).data = [] := rfl
      rw [he] at h; simp at h
    rcases List.mem_append.mp h with h | h
    · exact h2t _ h rfl
    rcases List.mem_append.mp h with h | h
    · exact h3t _ h rfl
    · exact h4t _ h rfl

theorem string_ext {s t : String} (h : s.data = t.data) : s = t := by
  cases s
  cases t
  exact congrArg String.mk h

theorem mem_cpython_abis_shape {v : Nat × Nat} {cfg : CPythonConfig} {a : String}
    (h : a ∈ cpython_abis v cfg) : ∃ x, a = "cp" ++ x := by
  simp only [cpython_abis, List.mem_cons] at h
  rcases h with rfl | h
  · refine ⟨version_nodot v ++ cpythonThreadingFlag v cfg ++ cpythonDebugStr cfg
      ++ pymallocStr v cfg ++ ucs4Str v cfg, string_ext ?_⟩
    simp [String.data_append]
  · rcases hsplit : (!tupleLt v (3, 8) && cpythonDebugStr cfg != "") with _ | _ <;>
      rw [hsplit] at h
    · simp at h
    · simp only [if_true, List.mem_singleton] at h
      subst h
      refine ⟨version_nodot v ++ cpythonThreadingFlag v cfg, string_ext ?_⟩
      simp [String.data_append]

theorem cpython_abis_no_explicit (v : Nat × Nat) (cfg : CPythonConfig) :
    "abi3" ∉ cpython_abis v cfg ∧ "none" ∉ cpython_abis v cfg := by
  constructor <;> intro h <;> obtain ⟨x, hx⟩ := mem_cpython_abis_shape h <;>
    (have hd := congrArg String.data hx; simp [String.data_append] at hd)

theorem cpython_abis_erase_eq (v : Nat × Nat) (cfg : CPythonConfig) :
    ((cpython_abis v cfg).erase "abi3").erase "none" = cpython_abis v cfg := by
  rw [List.erase_of_not_mem (cpython_abis_no_explicit v cfg).1,
    List.erase_of_not_mem (cpython_abis_no_explicit v cfg).2]

/-- C5: abi3 eligibility inside `cpython_tags` is exactly "CPython version ≥
(3, 2) and not a GIL-disabled (threaded) build", the threading bit being read
back out of the primary ABI string by the `cp\d+(.*)` regex; when eligible at
CPython 3.11 the tags include `cp311-abi3-<platform>` and
`cp3<m>-abi3-<platform>` for every prior minor `m` from 10 down to 2, and no
`cp27-abi3` tag ever appears. -/
theorem c5_abi3_eligibility_and_descent :
    (∀ (v : Nat × Nat) (cfg : CPythonConfig),
      abi3_applies v (is_threaded_cpython (((cpython_abis v cfg).erase "abi3").erase "none"))
        = (tupleGe v (3, 2) && !(tupleGe v (3, 13) && truthyInt cfg.Py_GIL_DISABLED)))
    ∧ (∀ (platforms : List String) (p : String), p ∈ platforms →
        ("cp311", "abi3", p) ∈ cpython_tags (3, 11) cp311Config platforms
        ∧ ∀ m : Nat, 2 ≤ m → m ≤ 10 →
            ("cp3" ++ pyStrNat m, "abi3", p) ∈ cpython_tags (3, 11) cp311Config platforms)
    ∧ (∀ (platforms : List String) (q : PyTag),
        q ∈ cpython_tags (3, 11) cp311Config platforms → q.1 = "cp27" → q.2.1 ≠ "abi3") := by
  have habis : ((cpython_abis (3, 11) cp311Config).erase "abi3").erase "none" = ["cp311"] := by
    decide
  have hth : is_threaded_cpython ["cp311"] = false := by decide
  have huse : abi3_applies (3, 11) false = true := by decide
  refine ⟨?_, ?_, ?_⟩
  · intro v cfg
    rw [cpython_abis_erase_eq, abi3_applies, is_threaded_cpython_abis]
  · intro platforms p hp
    constructor
    · simp only [cpython_tags, habis, hth, huse, if_true]
      apply List.mem_append_left
      apply List.mem_append_left
      apply List.mem_append_right
      exact List.mem_map_of_mem _ hp
    · intro m hm2 hm10
      simp only [cpython_tags, habis, hth, huse, if_true]
      apply List.mem_append_right
      refine List.mem_flatMap.mpr ⟨m, ?_, ?_⟩
      · rw [List.mem_reverse, List.mem_range']
        exact ⟨m - 2, by omega, by omega⟩
      · exact List.mem_map_of_mem _ hp
  · intro platforms q hq hq1
    simp only [cpython_tags, habis, hth, huse, if_true] at hq
    rcases List.mem_append.mp hq with hq2 | hD
    · rcases List.mem_append.mp hq2 with hq3 | hC
      · rcases List.mem_append.mp hq3 with hA | hB
        · simp only [List.flatMap_cons, List.flatMap_nil, List.append_nil] at hA
          obtain ⟨p', hp', rfl⟩ := List.mem_map.mp hA
          show ("cp311" : String) ≠ "abi3"
          decide
        · obtain ⟨p', hp', rfl⟩ := List.mem_map.mp hB
          have h' : ("cp" ++ version_nodot (3, 11) : String) = "cp27" := hq1
          exact absurd h' (by decide)
      · obtain ⟨p', hp', rfl⟩ := List.mem_map.mp hC
        show ("none" : String) ≠ "abi3"
        decide
    · obtain ⟨m, hm, hq'⟩ := List.mem_flatMap.mp hD
      obtain ⟨p', hp', rfl⟩ := List.mem_map.mp hq'
      have h' : "cp" ++ ("3" ++ pyStrNat m) = "cp27" := hq1
      have hd := congrArg String.data h'
      simp [String.data_append] at hd

/-- Witness for C5 at concrete inputs. -/
theorem c5_abi3_eligibility_and_descent_witness :
    ("cp311", "abi3", "linux_x86_64") ∈ cpython_tags (3, 11) cp311Config ["linux_x86_64"]
    ∧ ("cp3" ++ pyStrNat 9, "abi3", "linux_x86_64")
        ∈ cpython_tags (3, 11) cp311Config ["linux_x86_64"]
    ∧ ("cp3" ++ pyStrNat 2, "abi3", "linux_x86_64")
        ∈ cpython_tags (3, 11) cp311Config ["linux_x86_64"] :=
  ⟨(c5_abi3_eligibility_and_descent.2.1 ["linux_x86_64"] "linux_x86_64" (by decide)).1,
   (c5_abi3_eligibility_and_descent.2.1 ["linux_x86_64"] "linux_x86_64" (by decide)).2
     9 (by decide) (by decide),
   (c5_abi3_eligibility_and_descent.2.1 ["linux_x86_64"] "linux_x86_64" (by decide)).2
     2 (by decide) (by decide)⟩

/-! ### C4: the trailing universal fallback tag -/

theorem compatible_tags_getLast (platforms : List String) (interp : Option String)
    (v : Nat × Nat) (l : List PyTag) :
    (l ++ compatible_tags platforms interp v).getLast?
      = some ((if v.2 = 0 then "py" ++ pyStrNat v.1 else "py" ++ pyStrNat v.1 ++ "0"),
              "none", "any") := by
  have hGne : (py_interpreter_range v).map (fun s => ((s, "none", "any") : PyTag)) ≠ [] := by
    simp [py_interpreter_range]
  have hcompatne : compatible_tags platforms interp v ≠ [] := by
    simp only [compatible_tags]
    intro h
    exact hGne (List.append_eq_nil.mp h).2
  rw [List.getLast?_append_of_ne_nil _ hcompatne]
  simp only [compatible_tags]
  rw [List.getLast?_append_of_ne_nil _ hGne, List.getLast?_map]
  cases hv : v.2 with
  | zero =>
    simp [py_interpreter_range, hv]
  | succ k =>
    have hrevne : ((List.range (k + 1)).reverse.map
        fun m => "py" ++ version_nodot (v.1, m)) ≠ [] := by
      simp
    rw [py_interpreter_range, hv, List.getLast?_append_of_ne_nil _ hrevne, List.getLast?_map,
      List.getLast?_reverse, List.range_succ_eq_map]
    have hstr : "py" ++ version_nodot (v.1, 0) = "py" ++ pyStrNat v.1 ++ "0" := by
      apply string_ext
      simp [String.data_append, version_nodot, pyStrNat, natDigitsAux, digitChar]
    simp only [List.head?_cons]
    simp [hstr]

/-- C4 counterexample: for CPython 3.11 on one platform the resolved sequence
ends with `py30-none-any`, not `py3-none-any` (the claimed universal
fallback): the trailing block descends through `py310 ... py31, py30`. -/
theorem c4_last_tag_counterexample :
    (iter_supported_tags cp311Identity cp311Config ["linux_x86_64"]).map
        (fun tags => tags.getLast?)
      = .ok (some ("py30", "none", "any"))
    ∧ (("py30" : String), ("none" : String), ("any" : String))
        ≠ (("py3" : String), ("none" : String), ("any" : String)) := by
  constructor
  · rfl
  · decide

/-- C4 amended: every successful resolution's tag list ends with
`py<major>0-none-any` when the minor version is positive (for minor 0 it ends
with `py<major>-none-any`); the bare `py<major>-none-any` universal fallback
is present but is not the last element in the positive-minor case. -/
theorem c4_last_tag_amended :
    ∀ (ident : InterpreterIdentity) (cfg : CPythonConfig) (platforms : List String)
      (tags : List PyTag),
      iter_supported_tags ident cfg platforms = .ok tags →
      tags.getLast? = some
        ((if ident.version.2 = 0 then "py" ++ pyStrNat ident.version.1
          else "py" ++ pyStrNat ident.version.1 ++ "0"), "none", "any") := by
  intro ident cfg platforms tags h
  rw [iter_supported_tags] at h
  by_cases hcp : (ident.interp_name == "cp") = true
  · rw [hcp] at h
    simp only [if_true, Except.map] at h
    injection h with h
    subst h
    exact compatible_tags_getLast _ _ _ _
  · rw [Bool.eq_false_iff.mpr hcp] at h
    simp only [Bool.false_eq_true, if_false, generic_tags] at h
    cases hga : generic_abi ident.version cfg with
    | error e =>
      rw [hga] at h
      simp [Except.map] at h
    | ok abis0 =>
      rw [hga] at h
      simp only [Except.map] at h
      injection h with h
      subst h
      exact compatible_tags_getLast _ _ _ _

/-- Witness for C4's amended claim at concrete inputs. -/
theorem c4_last_tag_amended_witness :
    (cpython_tags (3, 11) cp311Config ["linux_x86_64"]
      ++ compatible_tags ["linux_x86_64"]
          (some ("cp" ++ interpreter_version cp311Identity cp311Config)) (3, 11)).getLast?
      = some ((if (11 : Nat) = 0 then "py" ++ pyStrNat 3 else "py" ++ pyStrNat 3 ++ "0"),
              "none", "any") :=
  c4_last_tag_amended cp311Identity cp311Config ["linux_x86_64"] _ rfl

/-! ### C9: determinism of the resolution -/

/-- C9: the resolution is a pure function of the gathered facts: equal
interpreter identities, config-var records and platform-tag lists give equal
results (all environment probes of the source enter as these explicit
arguments, so there is no hidden state). -/
theorem c9_deterministic_resolution :
    ∀ (i1 i2 : InterpreterIdentity) (c1 c2 : CPythonConfig) (p1 p2 : List String),
      i1 = i2 → c1 = c2 → p1 = p2 →
      iter_supported_tags i1 c1 p1 = iter_supported_tags i2 c2 p2 := by
  intro i1 i2 c1 c2 p1 p2 h1 h2 h3
  subst h1
  subst h2
  subst h3
  rfl

/-- Witness for C9 at concrete inputs. -/
theorem c9_deterministic_resolution_witness :
    iter_supported_tags cp311Identity cp311Config ["linux_x86_64"]
      = iter_supported_tags cp311Identity cp311Config ["linux_x86_64"] :=
  c9_deterministic_resolution cp311Identity cp311Identity cp311Config cp311Config
    ["linux_x86_64"] ["linux_x86_64"] rfl rfl rfl

/-! ### C1: duplicate analysis of the assembled tag sequence -/

theorem string_append_cancel_left {a b c : String} (h : a ++ b = a ++ c) : b = c := by
  have hd := congrArg String.data h
  rw [String.data_append, String.data_append] at hd
  exact string_ext (List.append_cancel_left hd)

theorem string_ne_of_ne_empty {a b : String} (h : b ≠ "") : a ++ b ≠ a := by
  intro he
  have hb : b.data ≠ [] := fun hnil => h (string_ext (by rw [hnil]))
  have hpos := List.length_pos.mpr hb
  have hlen := congrArg (fun s => s.data.length) he
  simp only [String.data_append, List.length_append] at hlen
  omega

theorem cp_ne_py (x y : String) : ("cp" ++ x : String) ≠ "py" ++ y := by
  intro h
  have hd := congrArg String.data h
  simp [String.data_append] at hd

theorem version_nodot_data' (a b : Nat) :
    (version_nodot (a, b)).data = natDigitsAux (a + 1) a ++ natDigitsAux (b + 1) b :=
  version_nodot_data (a, b)

theorem natDigitsAux_inj {m n : Nat} (h : natDigitsAux (m + 1) m = natDigitsAux (n + 1) n) :
    m = n := by
  have hm := natDigitsAux_val (m + 1) m (by omega)
  have hn := natDigitsAux_val (n + 1) n (by omega)
  rw [h] at hm
  omega

theorem version_nodot_minor_inj {M m1 m2 : Nat}
    (h : version_nodot (M, m1) = version_nodot (M, m2)) : m1 = m2 := by
  have hd := congrArg String.data h
  rw [version_nodot_data', version_nodot_data'] at hd
  exact natDigitsAux_inj (List.append_cancel_left hd)

theorem pyStrNat_ne_empty (n : Nat) : pyStrNat n ≠ "" := by
  intro h
  exact natDigitsAux_ne_nil (n + 1) n (by omega) (congrArg String.data h)

theorem py_interpreter_range_shape {v : Nat × Nat} {s : String}
    (h : s ∈ py_interpreter_range v) : ∃ y, s = "py" ++ y := by
  simp only [py_interpreter_range, List.cons_append, List.nil_append, List.mem_cons,
    List.mem_map] at h
  rcases h with rfl | rfl | ⟨m, _, rfl⟩
  · exact ⟨version_nodot v, rfl⟩
  · exact ⟨pyStrNat v.1, rfl⟩
  · exact ⟨version_nodot (v.1, m), rfl⟩

theorem py_interpreter_range_nodup (v : Nat × Nat) : (py_interpreter_range v).Nodup := by
  simp only [py_interpreter_range, List.cons_append, List.nil_append]
  refine List.nodup_cons.mpr ⟨?_, List.nodup_cons.mpr ⟨?_, ?_⟩⟩
  · intro hmem
    rcases List.mem_cons.mp hmem with heq | hmem2
    · exact string_ne_of_ne_empty (pyStrNat_ne_empty v.2) (string_append_cancel_left heq)
    · obtain ⟨m, hm, heq⟩ := List.mem_map.mp hmem2
      have h1 : version_nodot (v.1, m) = version_nodot (v.1, v.2) :=
        string_append_cancel_left heq
      have hm2 : m < v.2 := by
        rw [List.mem_reverse, List.mem_range] at hm
        exact hm
      have := version_nodot_minor_inj h1
      omega
  · intro hmem
    obtain ⟨m, hm, heq⟩ := List.mem_map.mp hmem
    exact string_ne_of_ne_empty (pyStrNat_ne_empty m) (string_append_cancel_left heq)
  · refine (List.nodup_reverse.mpr (List.nodup_range _)).map_on ?_
    intro m1 _ m2 _ h
    exact version_nodot_minor_inj (string_append_cancel_left h)

theorem cpython_abis_nodup (v : Nat × Nat) (cfg : CPythonConfig) :
    (cpython_abis v cfg).Nodup := by
  simp only [cpython_abis]
  cases hc : (!tupleLt v (3, 8) && cpythonDebugStr cfg != "") with
  | false =>
    simp
  | true =>
    simp only [if_true, List.nodup_cons, List.mem_singleton, List.not_mem_nil,
      not_false_iff, List.nodup_singleton, and_true]
    refine ⟨fun heq => ?_, trivial, List.nodup_nil⟩
    rw [Bool.and_eq_true] at hc
    obtain ⟨_, hdbg⟩ := hc
    have hdbgne : cpythonDebugStr cfg ≠ "" := by simpa using hdbg
    have hdb : (cpythonDebugStr cfg).data ≠ [] := fun hnil => hdbgne (string_ext hnil)
    have hpos := List.length_pos.mpr hdb
    have hlen := congrArg (fun s => s.data.length) heq
    simp only [String.data_append, List.length_append] at hlen
    omega

theorem nodup_cross {α : Type} (xs : List α) (platforms : List String)
    (f : α → String × String) (hxs : xs.Nodup) (hp : platforms.Nodup)
    (hinj : ∀ x1 ∈ xs, ∀ x2 ∈ xs, f x1 = f x2 → x1 = x2) :
    (xs.flatMap fun x => platforms.map fun p => ((f x).1, (f x).2, p)).Nodup := by
  rw [List.nodup_flatMap]
  constructor
  · intro x _
    exact hp.map_on fun p1 _ p2 _ h => congrArg (fun t => t.2.2) h
  · refine hxs.imp_of_mem ?_
    intro a b ha hb hab t hta htb
    obtain ⟨p1, _, rfl⟩ := List.mem_map.mp hta
    obtain ⟨p2, _, ht⟩ := List.mem_map.mp htb
    apply hab
    apply hinj a ha b hb
    have h1 := congrArg (fun t => t.1) ht
    have h2 := congrArg (fun t => t.2.1) ht
    exact Prod.ext h1.symm h2.symm

theorem cpython_tags_nodup (v : Nat × Nat) (cfg : CPythonConfig) (platforms : List String)
    (hp : platforms.Nodup) : (cpython_tags v cfg platforms).Nodup := by
  simp only [cpython_tags]
  rw [cpython_abis_erase_eq]
  have habi3 : "abi3" ∉ cpython_abis v cfg := (cpython_abis_no_explicit v cfg).1
  have hnone : "none" ∉ cpython_abis v cfg := (cpython_abis_no_explicit v cfg).2
  have hA : ((cpython_abis v cfg).flatMap fun abi => platforms.map fun p =>
      (("cp" ++ version_nodot v : String), abi, p)).Nodup :=
    nodup_cross (cpython_abis v cfg) platforms (fun abi => ("cp" ++ version_nodot v, abi))
      (cpython_abis_nodup v cfg) hp (fun x1 _ x2 _ h => congrArg (fun t => t.2) h)
  have hB : (platforms.map fun p =>
      (("cp" ++ version_nodot v : String), ("abi3" : String), p)).Nodup :=
    hp.map_on fun p1 _ p2 _ h => congrArg (fun t => t.2.2) h
  have hC : (platforms.map fun p =>
      (("cp" ++ version_nodot v : String), ("none" : String), p)).Nodup :=
    hp.map_on fun p1 _ p2 _ h => congrArg (fun t => t.2.2) h
  have hD : ((List.range' 2 (v.2 - 2)).reverse.flatMap fun m => platforms.map fun p =>
      (("cp" ++ version_nodot (v.1, m) : String), ("abi3" : String), p)).Nodup := by
    refine nodup_cross _ platforms (fun m => ("cp" ++ version_nodot (v.1, m), "abi3"))
      ?_ hp ?_
    · exact List.nodup_reverse.mpr (List.nodup_range' ..)
    · intro m1 _ m2 _ h
      exact version_nodot_minor_inj (string_append_cancel_left (congrArg (fun t => t.1) h))
  have hdAB : ∀ (abi : String), abi ∈ cpython_abis v cfg → abi ≠ "abi3" := by
    intro abi ha heq
    rw [heq] at ha
    exact habi3 ha
  have hdAC : ∀ (abi : String), abi ∈ cpython_abis v cfg → abi ≠ "none" := by
    intro abi ha heq
    rw [heq] at ha
    exact hnone ha
  cases huse : abi3_applies v (is_threaded_cpython (cpython_abis v cfg)) with
  | false =>
    simp only [Bool.false_eq_true, if_false, List.append_nil]
    refine List.Nodup.append hA hC ?_
    intro t ht1 ht2
    simp only [List.mem_flatMap, List.mem_map] at ht1 ht2
    obtain ⟨abi, ha, p1, hp1, rfl⟩ := ht1
    obtain ⟨p2, hp2, heq⟩ := ht2
    exact hdAC abi ha (congrArg (fun x => x.2.1) heq).symm
  | true =>
    simp only [if_true]
    refine List.Nodup.append (List.Nodup.append (List.Nodup.append hA hB ?_) hC ?_) hD ?_
    · intro t ht1 ht2
      simp only [List.mem_flatMap, List.mem_map] at ht1 ht2
      obtain ⟨abi, ha, p1, hp1, rfl⟩ := ht1
      obtain ⟨p2, hp2, heq⟩ := ht2
      exact hdAB abi ha (congrArg (fun x => x.2.1) heq).symm
    · intro t ht1 ht2
      rcases List.mem_append.mp ht1 with ht1 | ht1
      · simp only [List.mem_flatMap, List.mem_map] at ht1 ht2
        obtain ⟨abi, ha, p1, hp1, rfl⟩ := ht1
        obtain ⟨p2, hp2, heq⟩ := ht2
        exact hdAC abi ha (congrArg (fun x => x.2.1) heq).symm
      · simp only [List.mem_map] at ht1 ht2
        obtain ⟨p1, hp1, rfl⟩ := ht1
        obtain ⟨p2, hp2, heq⟩ := ht2
        have := congrArg (fun x => x.2.1) heq
        simp at this
    · intro t ht1 ht2
      simp only [List.mem_flatMap, List.mem_map] at ht2
      obtain ⟨m, hm, p2, hp2, heq2⟩ := ht2
      have hmlt : 2 ≤ m ∧ m < 2 + (v.2 - 2) := by
        rw [List.mem_reverse, List.mem_range'] at hm
        obtain ⟨i, hi, rfl⟩ := hm
        omega
      rcases List.mem_append.mp ht1 with ht1 | ht1
      · rcases List.mem_append.mp ht1 with ht1 | ht1
        · simp only [List.mem_flatMap, List.mem_map] at ht1
          obtain ⟨abi, ha, p1, hp1, rfl⟩ := ht1
          exact hdAB abi ha (congrArg (fun x => x.2.1) heq2).symm
        · simp only [List.mem_map] at ht1
          obtain ⟨p1, hp1, rfl⟩ := ht1
          have h1 := congrArg (fun x => x.1) heq2
          have h2 : version_nodot (v.1, m) = version_nodot (v.1, v.2) :=
            string_append_cancel_left h1
          have := version_nodot_minor_inj h2
          omega
      · simp only [List.mem_map] at ht1
        obtain ⟨p1, hp1, rfl⟩ := ht1
        have := congrArg (fun x => x.2.1) heq2
        simp at this

theorem compatible_tags_nodup (platforms : List String) (iv : String) (v : Nat × Nat)
    (hp : platforms.Nodup) (hany : "any" ∉ platforms) :
    (compatible_tags platforms (some ("cp" ++ iv)) v).Nodup := by
  simp only [compatible_tags]
  have hE : ((py_interpreter_range v).flatMap fun s => platforms.map fun p =>
      (s, ("none" : String), p)).Nodup :=
    nodup_cross _ platforms (fun s => (s, "none")) (py_interpreter_range_nodup v) hp
      (fun x1 _ x2 _ h => congrArg (fun t => t.1) h)
  have hG : ((py_interpreter_range v).map fun s =>
      ((s, "none", "any") : PyTag)).Nodup :=
    (py_interpreter_range_nodup v).map_on fun s1 _ s2 _ h => congrArg (fun t => t.1) h
  refine List.Nodup.append (List.Nodup.append hE (List.nodup_singleton _) ?_) hG ?_
  · intro t ht1 ht2
    simp only [List.mem_flatMap, List.mem_map] at ht1
    obtain ⟨s, hs, p, hpp, rfl⟩ := ht1
    rw [List.mem_singleton] at ht2
    have := congrArg (fun x => x.2.2) ht2
    simp only at this
    rw [this] at hpp
    exact hany hpp
  · intro t ht1 ht2
    simp only [List.mem_map] at ht2
    obtain ⟨s2, hs2, heq2⟩ := ht2
    rcases List.mem_append.mp ht1 with ht1 | ht1
    · simp only [List.mem_flatMap, List.mem_map] at ht1
      obtain ⟨s, hs, p, hpp, rfl⟩ := ht1
      have := congrArg (fun x => x.2.2) heq2
      simp only at this
      rw [← this] at hpp
      exact hany hpp
    · rw [List.mem_singleton] at ht1
      obtain ⟨y, hy⟩ := py_interpreter_range_shape hs2
      have h1 := congrArg (fun x => x.1) heq2
      simp only at h1
      rw [ht1] at h1
      simp only at h1
      rw [hy] at h1
      exact cp_ne_py iv y h1.symm

theorem cpython_tags_mem_shape {v : Nat × Nat} {cfg : CPythonConfig}
    {platforms : List String} {t : PyTag} (h : t ∈ cpython_tags v cfg platforms) :
    t.2.2 ∈ platforms ∧ ∃ x, t.1 = "cp" ++ x := by
  simp only [cpython_tags] at h
  rcases List.mem_append.mp h with h | h
  · rcases List.mem_append.mp h with h | h
    · rcases List.mem_append.mp h with h | h
      · simp only [List.mem_flatMap, List.mem_map] at h
        obtain ⟨abi, _, p, hpp, rfl⟩ := h
        exact ⟨hpp, version_nodot v, rfl⟩
      · cases huse : abi3_applies v (is_threaded_cpython
            (((cpython_abis v cfg).erase "abi3").erase "none")) <;> rw [huse] at h
        · simp at h
        · simp only [if_true, List.mem_map] at h
          obtain ⟨p, hpp, rfl⟩ := h
          exact ⟨hpp, version_nodot v, rfl⟩
    · simp only [List.mem_map] at h
      obtain ⟨p, hpp, rfl⟩ := h
      exact ⟨hpp, version_nodot v, rfl⟩
  · cases huse : abi3_applies v (is_threaded_cpython
        (((cpython_abis v cfg).erase "abi3").erase "none")) <;> rw [huse] at h
    · simp at h
    · simp only [if_true, List.mem_flatMap, List.mem_map] at h
      obtain ⟨m, _, p, hpp, rfl⟩ := h
      exact ⟨hpp, version_nodot (v.1, m), rfl⟩

theorem cpython_compatible_disjoint (v : Nat × Nat) (cfg : CPythonConfig)
    (platforms : List String) (iv : String) (hany : "any" ∉ platforms) :
    List.Disjoint (cpython_tags v cfg platforms)
      (compatible_tags platforms (some ("cp" ++ iv)) v) := by
  intro t ht1 ht2
  obtain ⟨hplat, x, hx⟩ := cpython_tags_mem_shape ht1
  simp only [compatible_tags] at ht2
  rcases List.mem_append.mp ht2 with ht2 | ht2
  · rcases List.mem_append.mp ht2 with ht2 | ht2
    · simp only [List.mem_flatMap, List.mem_map] at ht2
      obtain ⟨s, hs, p, hpp, heq⟩ := ht2
      obtain ⟨y, hy⟩ := py_interpreter_range_shape hs
      have h1 := congrArg (fun q => q.1) heq
      simp only at h1
      rw [hy] at h1
      rw [← h1] at hx
      exact cp_ne_py x y hx.symm
    · rw [List.mem_singleton] at ht2
      have h2 := congrArg (fun q => q.2.2) ht2
      simp only at h2
      rw [h2] at hplat
      exact hany hplat
  · simp only [List.mem_map] at ht2
    obtain ⟨s, hs, heq⟩ := ht2
    have h2 := congrArg (fun q => q.2.2) heq
    simp only at h2
    rw [← h2] at hplat
    exact hany hplat

/-- C1 counterexample: the assembler performs no deduplication.  With the
platform list `["any"]` for CPython 3.11 the triple `(cp311, none, any)` is
produced twice: once by the CPython `none` tier and once as the
`<interpreter>-none-any` fallback of `compatible_tags`. -/
theorem c1_duplicate_counterexample :
    iter_supported_tags cp311Identity cp311Config ["any"]
      = .ok (cpython_tags (3, 11) cp311Config ["any"]
          ++ compatible_tags ["any"] (some "cp311") (3, 11))
    ∧ ¬ (cpython_tags (3, 11) cp311Config ["any"]
          ++ compatible_tags ["any"] (some "cp311") (3, 11)).Nodup := by
  constructor
  · rfl
  · decide

/-- C1 amended: provided the platform-tag list is duplicate-free and does not
contain `"any"`, and the interpreter is CPython (short name `cp`, the
assembler path the spec's scenarios exercise), the assembled sequence contains
no duplicate triples.  Without these provisos the claim fails: the assembler
never deduplicates, it only happens to receive duplicate-free inputs. -/
theorem c1_no_duplicates_amended :
    ∀ (ident : InterpreterIdentity) (cfg : CPythonConfig) (platforms : List String)
      (tags : List PyTag),
      ident.interp_name = "cp" →
      platforms.Nodup → "any" ∉ platforms →
      iter_supported_tags ident cfg platforms = .ok tags →
      tags.Nodup := by
  intro ident cfg platforms tags hcp hnd hany h
  rw [iter_supported_tags] at h
  have hcpb : (ident.interp_name == "cp") = true := by simp [hcp]
  have hppb : (ident.interp_name == "pp") = false := by simp [hcp]
  rw [hcpb, hppb] at h
  simp only [if_true, Bool.false_and, Bool.false_eq_true, if_false, Except.map] at h
  injection h with h
  subst h
  exact List.Nodup.append (cpython_tags_nodup ident.version cfg platforms hnd)
    (compatible_tags_nodup platforms (interpreter_version ident cfg) ident.version hnd hany)
    (cpython_compatible_disjoint ident.version cfg platforms
      (interpreter_version ident cfg) hany)

/-- Witness for C1's amended claim at concrete inputs. -/
theorem c1_no_duplicates_amended_witness :
    (cpython_tags (3, 11) cp311Config ["linux_x86_64"]
      ++ compatible_tags ["linux_x86_64"]
          (some ("cp" ++ interpreter_version cp311Identity cp311Config)) (3, 11)).Nodup :=
  c1_no_duplicates_amended cp311Identity cp311Config ["linux_x86_64"] _ rfl
    (by decide) (by decide) rfl
